import Mathlib

/-!
Verification of the sheet-as-database access layer of the backend in
src/server.js.  The spreadsheet is modelled as a grid of string cells
(List (List String)); a decoded record is an association list from column
name to cell value, mirroring a JS object built by assigning
rowObject[key] = row[index] while iterating over the header.  A JS value
that may be a string, null or undefined is modelled by the Cell type.
Operations that can throw a TypeError are modelled in Except Unit.
-/

namespace SheetsBackend

/-- A JS cell value: a string, the JS null, or undefined (absent). -/
inductive Cell where
  | undef : Cell
  | null : Cell
  | str : String → Cell
deriving DecidableEq

/-- A decoded row object: column name to value, in key insertion order. -/
abbrev Record := List (String × Cell)

/-- Property read obj[k] on a JS object: value of the key, undefined if absent. -/
def getField (r : Record) (k : String) : Cell :=
  match r.find? (fun p => p.1 == k) with
  | some p => p.2
  | none => Cell.undef

/-- Property write obj[k] = v on a JS object: overwrite in place if the key
exists, otherwise append the key at the end (JS insertion order). -/
def objInsert (r : Record) (k : String) (v : Cell) : Record :=
  if r.any (fun p => p.1 == k) then
    r.map (fun p => if p.1 == k then (k, v) else p)
  else r ++ [(k, v)]

/-- Indexing row[i] on a JS array of strings: undefined past the end. -/
def jsCell (row : List String) (i : Nat) : Cell :=
  match row.get? i with
  | some s => Cell.str s
  | none => Cell.undef

/-- The header.forEach((key, index) => rowObject[key] = row[index]) loop of
getSheetData (src/server.js lines 62-65), with explicit index and
accumulated object. -/
def decodeRowFrom (row : List String) : Nat → Record → List String → Record
  | _, acc, [] => acc
  | i, acc, k :: ks => decodeRowFrom row (i + 1) (objInsert acc k (jsCell row i)) ks

/-- Decode one raw data row against the header into a record object. -/
def decodeRow (header row : List String) : Record :=
  decodeRowFrom row 0 [] header

/-- getSheetData (src/server.js lines 46-70) on an already-fetched grid:
returns [] for an empty grid, for a single all-empty row, and for an empty
first row; otherwise decodes each data row against the header (row 1). -/
def getSheetData (grid : List (List String)) : List Record :=
  match grid with
  | [] => []
  | h :: rest =>
    if rest.isEmpty && h.all (fun c => c == "") then []
    else if h.isEmpty then []
    else rest.map (fun row => decodeRow h row)

/-- The scan loop of findSheetRow (src/server.js lines 92-100): first record
whose field at the column strictly equals the search value, paired with
rowIndex = i + 2. -/
def findFrom (c v : String) : List Record → Nat → Option (Record × Nat)
  | [], _ => none
  | r :: rest, i =>
    if getField r c = Cell.str v then some (r, i + 2) else findFrom c v rest (i + 1)

/-- findSheetRow (src/server.js lines 86-102) on a grid.  On a fully empty
sheet the source reads data.values of the 1:1 range, which is undefined, and
indexing it throws a TypeError: modelled as Except.error. -/
def findSheetRow (grid : List (List String)) (c v : String) :
    Except Unit (Option (Record × Nat)) :=
  match grid with
  | [] => Except.error ()
  | _ :: _ => Except.ok (findFrom c v (getSheetData grid) 0)

/-- The inline header guard of the register route (src/server.js lines
178-195): append the expected header to an empty sheet, overwrite row 1 when
it differs, do nothing when it matches.  The Bool records whether the sheet
was written. -/
def ensureHeader (grid : List (List String)) (expected : List String) :
    List (List String) × Bool :=
  match grid with
  | [] => ([expected], true)
  | h :: rest => if h = expected then (h :: rest, false) else (expected :: rest, true)

/-- The fixed Users header of the register route (src/server.js line 178). -/
def usersHeader : List String :=
  ["userId", "email", "passwordHash", "membership", "createdAt", "updatedAt"]

/-- C7: decoding an entirely empty grid and decoding a grid consisting of
only a header row both yield the empty list of records. -/
theorem getSheetData_empty_and_headerOnly :
    getSheetData [] = [] ∧ ∀ H : List String, getSheetData [H] = [] := by
  refine ⟨rfl, fun H => ?_⟩
  unfold getSheetData
  by_cases h1 : H.all (fun c => c == "")
  · simp [h1]
  · by_cases h2 : H.isEmpty <;> simp [h1, h2]

/-- C5: the header guard is idempotent.  If row 1 already equals the
expected header it performs no write; a second run right after a first run
never writes; an empty sheet gets the header appended; a differing row 1 is
overwritten in place. -/
theorem ensureHeader_spec (grid : List (List String)) (expected : List String) :
    (grid.head? = some expected → ensureHeader grid expected = (grid, false))
    ∧ ensureHeader (ensureHeader grid expected).1 expected
        = ((ensureHeader grid expected).1, false)
    ∧ (grid = [] → ensureHeader grid expected = ([expected], true))
    ∧ (∀ h rest, grid = h :: rest → h ≠ expected →
        ensureHeader grid expected = (expected :: rest, true)) := by
  refine ⟨?_, ?_, ?_, ?_⟩
  · intro hh
    cases grid with
    | nil => simp at hh
    | cons h rest =>
      simp only [List.head?] at hh
      injection hh with hh
      simp [ensureHeader, hh]
  · cases grid with
    | nil => simp [ensureHeader]
    | cons h rest =>
      by_cases he : h = expected <;> simp [ensureHeader, he]
  · intro hg; subst hg; rfl
  · intro h rest hg he; subst hg; simp [ensureHeader, he]

/-- Witness for C5 at a concrete sheet whose row 1 already matches. -/
theorem ensureHeader_spec_witness :
    ensureHeader [["a", "b"], ["1", "2"]] ["a", "b"] = ([["a", "b"], ["1", "2"]], false) :=
  (ensureHeader_spec [["a", "b"], ["1", "2"]] ["a", "b"]).1 rfl

lemma getD_map {α β : Type} (f : α → β) (l : List α) (k : Nat) (d : α) (d2 : β)
    (hk : k < l.length) : (l.map f).getD k d2 = f (l.getD k d) := by
  induction l generalizing k with
  | nil => simp at hk
  | cons a l ih =>
    cases k with
    | zero => rfl
    | succ m =>
      simp only [List.map_cons, List.getD_cons_succ]
      exact ih m (by simpa using hk)

lemma getSheetData_cons (header : List String) (dataRows : List (List String))
    (hh : header ≠ []) (hd : dataRows ≠ []) :
    getSheetData (header :: dataRows) = dataRows.map (fun row => decodeRow header row) := by
  simp only [getSheetData]
  rw [if_neg, if_neg]
  · simpa [List.isEmpty_iff] using hh
  · intro hcon
    rw [Bool.and_eq_true] at hcon
    exact hd (List.isEmpty_iff.1 hcon.1)

lemma findFrom_eq_none (c v : String) (recs : List Record) (i : Nat)
    (h : ∀ r ∈ recs, getField r c ≠ Cell.str v) : findFrom c v recs i = none := by
  induction recs generalizing i with
  | nil => rfl
  | cons r rest ih =>
    simp only [findFrom]
    rw [if_neg (h r (List.mem_cons_self r rest))]
    exact ih (i + 1) (fun x hx => h x (List.mem_cons_of_mem r hx))

lemma findFrom_first (c v : String) (recs : List Record) (i k : Nat)
    (hk : k < recs.length)
    (hmatch : getField (recs.getD k []) c = Cell.str v)
    (hbefore : ∀ j, j < k → getField (recs.getD j []) c ≠ Cell.str v) :
    findFrom c v recs i = some (recs.getD k [], i + k + 2) := by
  induction recs generalizing i k with
  | nil => simp at hk
  | cons r rest ih =>
    cases k with
    | zero =>
      simp only [List.getD_cons_zero] at hmatch ⊢
      simp only [findFrom, if_pos hmatch]
    | succ m =>
      have h0 : getField r c ≠ Cell.str v := by
        have := hbefore 0 (Nat.succ_pos m)
        simpa using this
      simp only [List.getD_cons_succ] at hmatch ⊢
      simp only [findFrom, if_neg h0]
      have hres := ih (i + 1) m (by simpa using hk) hmatch
        (fun j hj => by
          have := hbefore (j + 1) (Nat.succ_lt_succ hj)
          simpa using this)
      rw [hres]
      have harith : i + 1 + m + 2 = i + (m + 1) + 2 := by omega
      rw [harith]

lemma findFrom_some (c v : String) (recs : List Record) (i n : Nat) (r : Record)
    (h : findFrom c v recs i = some (r, n)) :
    ∃ k, k < recs.length ∧ recs.getD k [] = r ∧ n = i + k + 2 ∧
      getField r c = Cell.str v ∧
      ∀ j, j < k → getField (recs.getD j []) c ≠ Cell.str v := by
  induction recs generalizing i with
  | nil => simp [findFrom] at h
  | cons r0 rest ih =>
    by_cases h0 : getField r0 c = Cell.str v
    · simp only [findFrom, if_pos h0, Option.some_inj, Prod.mk.injEq] at h
      refine ⟨0, Nat.succ_pos _, by simp [h.1], by omega, h.1 ▸ h0, by omega⟩
    · simp only [findFrom, if_neg h0] at h
      obtain ⟨k, hk, hget, hn, hm, hb⟩ := ih (i + 1) h
      refine ⟨k + 1, Nat.succ_lt_succ hk, by simpa using hget, by omega, hm, ?_⟩
      intro j hj
      cases j with
      | zero => simpa using h0
      | succ m =>
        have := hb m (by omega)
        simpa using this

/-- C2: on a sheet with a header row and data rows, a successful find at
0-based data offset k reports physical row index k + 2. -/
theorem findSheetRow_rowIndex (header : List String) (dataRows : List (List String))
    (c v : String) (k : Nat)
    (hh : header ≠ []) (hk : k < dataRows.length)
    (hmatch : getField (decodeRow header (dataRows.getD k [])) c = Cell.str v)
    (hbefore : ∀ j, j < k →
      getField (decodeRow header (dataRows.getD j [])) c ≠ Cell.str v) :
    findSheetRow (header :: dataRows) c v
      = Except.ok (some (decodeRow header (dataRows.getD k []), k + 2)) := by
  have hd : dataRows ≠ [] := by
    intro hcon; subst hcon; simp at hk
  have hrecs := getSheetData_cons header dataRows hh hd
  have hk2 : k < (dataRows.map (fun row => decodeRow header row)).length := by
    simpa using hk
  have hfirst := findFrom_first c v (dataRows.map (fun row => decodeRow header row)) 0 k hk2
    (by rw [getD_map _ _ _ []] <;> [exact hmatch; exact hk])
    (fun j hj => by
      rw [getD_map _ _ _ [] _ (by omega)]
      exact hbefore j hj)
  simp only [findSheetRow, hrecs, hfirst]
  rw [getD_map _ _ _ [] _ hk]
  norm_num

/-- Witness for C2: offset 1 in a two-data-row sheet reports row index 3. -/
theorem findSheetRow_rowIndex_witness :
    findSheetRow [["email"], ["a"], ["b"]] "email" "b"
      = Except.ok (some (decodeRow ["email"] ["b"], 3)) :=
  findSheetRow_rowIndex ["email"] [["a"], ["b"]] "email" "b" 1
    (by decide) (by decide) (by decide)
    (fun j hj => by
      have hj0 : j = 0 := by omega
      subst hj0; decide)

lemma objInsert_key_ne (acc : Record) (k : String) (v : Cell) (c : String)
    (hk : k ≠ c) (hacc : ∀ p ∈ acc, p.1 ≠ c) : ∀ p ∈ objInsert acc k v, p.1 ≠ c := by
  intro p hp
  unfold objInsert at hp
  by_cases h : acc.any (fun p => p.1 == k)
  · rw [if_pos h] at hp
    obtain ⟨q, hq, hpq⟩ := List.mem_map.1 hp
    by_cases hqk : q.1 == k
    · rw [if_pos hqk] at hpq
      rw [← hpq]
      exact hk
    · rw [if_neg hqk] at hpq
      exact hpq ▸ hacc q hq
  · rw [if_neg h] at hp
    rcases List.mem_append.1 hp with h1 | h2
    · exact hacc p h1
    · have : p = (k, v) := by simpa using h2
      rw [this]
      exact hk

lemma decodeRowFrom_key_ne (row : List String) (c : String) (hdr : List String) :
    ∀ (i : Nat) (acc : Record), c ∉ hdr → (∀ p ∈ acc, p.1 ≠ c) →
      ∀ p ∈ decodeRowFrom row i acc hdr, p.1 ≠ c := by
  induction hdr with
  | nil =>
    intro i acc _ hacc p hp
    exact hacc p hp
  | cons k ks ih =>
    intro i acc hc hacc p hp
    simp only [decodeRowFrom] at hp
    have hk : k ≠ c := fun h => hc (h ▸ List.mem_cons_self k ks)
    exact ih (i + 1) _ (fun h => hc (List.mem_cons_of_mem k h))
      (objInsert_key_ne acc k (jsCell row i) c hk hacc) p hp

lemma getField_decodeRow_not_mem (header row : List String) (c : String)
    (hc : c ∉ header) : getField (decodeRow header row) c = Cell.undef := by
  have hall := decodeRowFrom_key_ne row c header 0 [] hc (by simp)
  unfold getField
  rw [List.find?_eq_none.2]
  intro p hp
  simpa using hall p hp

/-- C6: findSheetRow is a linear scan in data-row order under exact string
equality.  No matching record gives a not-found result; a successful result
is the first match, at its physical row index; a column name absent from the
header gives not-found rather than a thrown fault. -/
theorem findSheetRow_scan (header : List String) (dataRows : List (List String))
    (c v : String) :
    (c ∉ header → findSheetRow (header :: dataRows) c v = Except.ok none)
    ∧ ((∀ r ∈ getSheetData (header :: dataRows), getField r c ≠ Cell.str v) →
        findSheetRow (header :: dataRows) c v = Except.ok none)
    ∧ (∀ r n, findSheetRow (header :: dataRows) c v = Except.ok (some (r, n)) →
        ∃ k, k < (getSheetData (header :: dataRows)).length
          ∧ (getSheetData (header :: dataRows)).getD k [] = r
          ∧ n = k + 2 ∧ getField r c = Cell.str v
          ∧ ∀ j, j < k →
              getField ((getSheetData (header :: dataRows)).getD j []) c ≠ Cell.str v) := by
  have hnomatch : ∀ (hall : ∀ r ∈ getSheetData (header :: dataRows),
      getField r c ≠ Cell.str v),
      findSheetRow (header :: dataRows) c v = Except.ok none := by
    intro hall
    simp only [findSheetRow]
    rw [findFrom_eq_none c v _ 0 hall]
  refine ⟨?_, hnomatch, ?_⟩
  · intro hc
    apply hnomatch
    intro r hr
    simp only [getSheetData] at hr
    by_cases h1 : dataRows.isEmpty && header.all (fun cel => cel == "")
    · rw [if_pos h1] at hr; simp at hr
    · rw [if_neg h1] at hr
      by_cases h2 : header.isEmpty
      · rw [if_pos h2] at hr; simp at hr
      · rw [if_neg h2] at hr
        obtain ⟨row, _, hrow⟩ := List.mem_map.1 hr
        rw [← hrow, getField_decodeRow_not_mem header row c hc]
        intro hcon
        exact Cell.noConfusion hcon
  · intro r n h
    simp only [findSheetRow, Except.ok.injEq] at h
    obtain ⟨k, hk, hget, hn, hm, hb⟩ := findFrom_some c v _ 0 n r h
    exact ⟨k, hk, hget, by omega, hm, hb⟩

/-- Witness for C6: an absent column name yields a not-found result. -/
theorem findSheetRow_scan_witness :
    findSheetRow [["a"], ["x"]] "b" "x" = Except.ok none :=
  (findSheetRow_scan ["a"] [["x"]] "b" "x").1 (by decide)

/-- The newRowOrdered projection of the register route (src/server.js lines
210-220): the expected Users header mapped through the field switch. -/
def newRowOrdered (userId email passwordHash now : String) : List String :=
  usersHeader.map (fun col =>
    if col = "userId" then userId
    else if col = "email" then email
    else if col = "passwordHash" then passwordHash
    else if col = "membership" then "free"
    else if col = "createdAt" then now
    else if col = "updatedAt" then now
    else "")

/-- The register route (src/server.js lines 169-237) acting on the Users
grid.  The password hash, generated userId and timestamp are opaque
external capabilities, passed in as arguments; the result is the response
status, the response message and the resulting grid. -/
def register (grid : List (List String)) (email password passwordHash userId now : String) :
    Nat × String × List (List String) :=
  if email = "" ∨ password = "" then
    (400, "Por favor, introduce email y contraseña.", grid)
  else
    let g1 := (ensureHeader grid usersHeader).1
    match findSheetRow g1 "email" email with
    | Except.error _ => (500, "Error del servidor al registrar usuario.", g1)
    | Except.ok (some _) => (400, "El email ya está registrado.", g1)
    | Except.ok none =>
        (201, "Usuario registrado con éxito.",
          g1 ++ [newRowOrdered userId email passwordHash now])

/-- The login route (src/server.js lines 240-272) acting on the Users grid.
The bcrypt comparison is an opaque capability verify : hash to password to
Bool; comparing against a non-string stored hash rejects, surfacing as the
500 branch.  The result is the response status and message. -/
def login (grid : List (List String)) (verify : String → String → Bool)
    (email password : String) : Nat × String :=
  if email = "" ∨ password = "" then
    (400, "Por favor, introduce email y contraseña.")
  else
    match findSheetRow grid "email" email with
    | Except.error _ => (500, "Error del servidor al iniciar sesión.")
    | Except.ok none => (400, "Credenciales inválidas.")
    | Except.ok (some (r, _)) =>
        match getField r "passwordHash" with
        | Cell.str h =>
            if verify h password then (200, "Inicio de sesión exitoso.")
            else (400, "Credenciales inválidas.")
        | _ => (500, "Error del servidor al iniciar sesión.")

lemma findFrom_of_mem (c v : String) (recs : List Record) (i : Nat)
    (h : ∃ r ∈ recs, getField r c = Cell.str v) :
    ∃ p, findFrom c v recs i = some p := by
  induction recs generalizing i with
  | nil => simp at h
  | cons r0 rest ih =>
    by_cases h0 : getField r0 c = Cell.str v
    · exact ⟨(r0, i + 2), by simp [findFrom, if_pos h0]⟩
    · obtain ⟨r, hr, hrv⟩ := h
      rcases List.mem_cons.1 hr with rfl | hmem
      · exact absurd hrv h0
      · obtain ⟨p, hp⟩ := ih (i + 1) ⟨r, hmem, hrv⟩
        exact ⟨p, by simp [findFrom, if_neg h0, hp]⟩

/-- C4: registering an email that already belongs to a record of the Users
sheet is rejected with status 400 and the already-registered message, and
the grid — in particular its data rows — is left entirely unchanged. -/
theorem register_duplicate_email (grid : List (List String))
    (email password passwordHash userId now : String)
    (he : email ≠ "") (hp : password ≠ "")
    (hhead : grid.head? = some usersHeader)
    (hex : ∃ r ∈ getSheetData grid, getField r "email" = Cell.str email) :
    register grid email password passwordHash userId now
      = (400, "El email ya está registrado.", grid) := by
  unfold register
  rw [if_neg (by tauto)]
  have hg1 : (ensureHeader grid usersHeader).1 = grid := by
    rw [(ensureHeader_spec grid usersHeader).1 hhead]
  rw [hg1]
  obtain ⟨h0, rest, hgrid⟩ : ∃ h0 rest, grid = h0 :: rest := by
    cases grid with
    | nil => simp at hhead
    | cons h0 rest => exact ⟨h0, rest, rfl⟩
  obtain ⟨p, hp2⟩ := findFrom_of_mem "email" email (getSheetData grid) 0 hex
  rw [hgrid]
  simp only [findSheetRow]
  rw [hgrid] at hp2
  rw [hp2]

/-- Witness for C4 at a concrete Users sheet holding the requested email. -/
theorem register_duplicate_email_witness :
    register [usersHeader, ["u1", "a@x.com", "h", "free", "t", "t"]]
        "a@x.com" "pw" "h2" "u2" "t2"
      = (400, "El email ya está registrado.",
          [usersHeader, ["u1", "a@x.com", "h", "free", "t", "t"]]) :=
  register_duplicate_email [usersHeader, ["u1", "a@x.com", "h", "free", "t", "t"]]
    "a@x.com" "pw" "h2" "u2" "t2" (by decide) (by decide) rfl
    ⟨decodeRow usersHeader ["u1", "a@x.com", "h", "free", "t", "t"],
      by constructor <;> decide⟩

/-- C9: the login failure for an unknown email and the login failure for an
existing user with a non-matching password are the same response, status
400 with the same generic invalid-credentials message. -/
theorem login_failures_identical (grid1 grid2 : List (List String))
    (verify1 verify2 : String → String → Bool) (e1 p1 e2 p2 : String)
    (he1 : e1 ≠ "") (hp1 : p1 ≠ "") (he2 : e2 ≠ "") (hp2 : p2 ≠ "")
    (hnone : findSheetRow grid1 "email" e1 = Except.ok none)
    (hfound : ∃ r i hsh, findSheetRow grid2 "email" e2 = Except.ok (some (r, i))
      ∧ getField r "passwordHash" = Cell.str hsh ∧ verify2 hsh p2 = false) :
    login grid1 verify1 e1 p1 = (400, "Credenciales inválidas.")
    ∧ login grid2 verify2 e2 p2 = (400, "Credenciales inválidas.") := by
  constructor
  · unfold login
    rw [if_neg (by tauto), hnone]
  · obtain ⟨r, i, hsh, hfind, hhash, hver⟩ := hfound
    unfold login
    rw [if_neg (by tauto), hfind]
    simp only [hhash]
    rw [if_neg (by simp [hver])]

/-- Witness for C9 at concrete Users sheets: both failure modes produce the
identical 400 response. -/
theorem login_failures_identical_witness :
    login [usersHeader] (fun _ _ => false) "a@x.com" "pw"
      = (400, "Credenciales inválidas.")
    ∧ login [usersHeader, ["u1", "b@x.com", "H", "free", "t", "t"]]
        (fun _ _ => false) "b@x.com" "pw"
      = (400, "Credenciales inválidas.") :=
  login_failures_identical [usersHeader]
    [usersHeader, ["u1", "b@x.com", "H", "free", "t", "t"]]
    (fun _ _ => false) (fun _ _ => false) "a@x.com" "pw" "b@x.com" "pw"
    (by decide) (by decide) (by decide) (by decide) rfl
    ⟨decodeRow usersHeader ["u1", "b@x.com", "H", "free", "t", "t"], 2, "H",
      by refine ⟨rfl, by decide, rfl⟩⟩

/-- Assignment arr[i] = v on a JS array: overwrite in range, extend with
undefined holes past the end. -/
def jsArraySet : List Cell → Nat → Cell → List Cell
  | [], 0, v => [v]
  | [], Nat.succ n, v => Cell.undef :: jsArraySet [] n v
  | _ :: t, 0, v => v :: t
  | h :: t, Nat.succ n, v => h :: jsArraySet t n v

/-- Indexing row[i] on a JS array of cells: undefined past the end. -/
def cellVal (row : List Cell) (i : Nat) : Cell :=
  (row.get? i).getD Cell.undef

/-- The for-in merge loop of updateSheetRowByIndex (src/server.js lines
121-126): for each patch key found in the header, overwrite the cell at the
key's header position; keys absent from the header are skipped. -/
def applyPatch (header : List String) : List Cell → List (String × String) → List Cell
  | row, [] => row
  | row, (k, v) :: rest =>
    if header.indexOf k < header.length then
      applyPatch header (jsArraySet row (header.indexOf k) (Cell.str v)) rest
    else applyPatch header row rest

/-- updateSheetRowByIndex (src/server.js lines 105-136) acting on the
already-fetched current row: a missing row becomes a row of empty strings
sized to the header, then the patch is merged in. -/
def updateSheetRowByIndex (header : List String) (stored : Option (List String))
    (patch : List (String × String)) : List Cell :=
  let currentRow : List Cell :=
    match stored with
    | some r => r.map Cell.str
    | none => List.replicate header.length (Cell.str "")
  applyPatch header currentRow patch

lemma cellVal_nil (j : Nat) : cellVal [] j = Cell.undef := by
  cases j <;> rfl

lemma cellVal_jsArraySet (r : List Cell) (i : Nat) (v : Cell) (j : Nat) :
    cellVal (jsArraySet r i v) j = if j = i then v else cellVal r j := by
  induction r generalizing i j with
  | nil =>
    induction i generalizing j with
    | zero =>
      cases j with
      | zero => rfl
      | succ m => simp [jsArraySet, cellVal]
    | succ n ih =>
      cases j with
      | zero => simp [jsArraySet, cellVal]
      | succ m =>
        have : cellVal (jsArraySet [] (n + 1) v) (m + 1)
            = cellVal (jsArraySet [] n v) m := rfl
        rw [this, ih m, cellVal_nil, cellVal_nil]
        simp [Nat.succ_inj]
  | cons h t iht =>
    cases i with
    | zero =>
      cases j with
      | zero => rfl
      | succ m => simp [jsArraySet, cellVal]
    | succ n =>
      cases j with
      | zero => simp [jsArraySet, cellVal]
      | succ m =>
        have : cellVal (jsArraySet (h :: t) (n + 1) v) (m + 1)
            = cellVal (jsArraySet t n v) m := rfl
        rw [this, iht n m]
        simp [Nat.succ_inj, cellVal]

lemma applyPatch_frame (header : List String) (j : Nat) :
    ∀ (patch : List (String × String)) (row : List Cell),
      (∀ kv ∈ patch, header.indexOf kv.1 < header.length → header.indexOf kv.1 ≠ j) →
      cellVal (applyPatch header row patch) j = cellVal row j := by
  intro patch
  induction patch with
  | nil => intro row _; rfl
  | cons kv rest ih =>
    intro row hno
    obtain ⟨k, v⟩ := kv
    simp only [applyPatch]
    by_cases hin : header.indexOf k < header.length
    · rw [if_pos hin]
      rw [ih _ (fun q hq => hno q (List.mem_cons_of_mem _ hq))]
      rw [cellVal_jsArraySet]
      rw [if_neg (fun hj => (hno (k, v) (List.mem_cons_self _ _) hin) hj.symm)]
    · rw [if_neg hin]
      exact ih row (fun q hq => hno q (List.mem_cons_of_mem _ hq))

lemma getD_indexOf (l : List String) (a : String) (h : a ∈ l) :
    l.getD (l.indexOf a) "" = a := by
  have hlt : l.indexOf a < l.length := List.indexOf_lt_length.2 h
  rw [List.getD_eq_getElem _ _ hlt]
  exact List.getElem_indexOf hlt

lemma applyPatch_sets (header : List String) :
    ∀ (patch : List (String × String)) (row : List Cell) (k v : String),
      (k, v) ∈ patch → (patch.map Prod.fst).Nodup → k ∈ header →
      cellVal (applyPatch header row patch) (header.indexOf k) = Cell.str v := by
  intro patch
  induction patch with
  | nil => intro row k v hmem; simp at hmem
  | cons kv rest ih =>
    intro row k v hmem hnd hk
    obtain ⟨k0, v0⟩ := kv
    have hnd2 : (k0 :: rest.map Prod.fst).Nodup := by
      rw [List.map_cons] at hnd; exact hnd
    have hnd0 : k0 ∉ rest.map Prod.fst := (List.nodup_cons.1 hnd2).1
    have hndrest : (rest.map Prod.fst).Nodup := (List.nodup_cons.1 hnd2).2
    rcases List.mem_cons.1 hmem with heq | hmemrest
    · obtain ⟨hk0, hv0⟩ := Prod.mk.injEq .. ▸ heq
      subst hk0; subst hv0
      have hin : header.indexOf k < header.length := List.indexOf_lt_length.2 hk
      simp only [applyPatch, if_pos hin]
      rw [applyPatch_frame header (header.indexOf k) rest _ ?_]
      · rw [cellVal_jsArraySet, if_pos rfl]
      · intro q hq hqin hqeq
        have hqmem : q.1 ∈ header := List.indexOf_lt_length.1 hqin
        have : q.1 = k := (List.indexOf_inj hqmem hk).1 hqeq
        exact hnd0 (this ▸ List.mem_map_of_mem Prod.fst hq)
    · simp only [applyPatch]
      by_cases hin0 : header.indexOf k0 < header.length
      · rw [if_pos hin0]
        exact ih _ k v hmemrest hndrest hk
      · rw [if_neg hin0]
        exact ih _ k v hmemrest hndrest hk

lemma applyPatch_skip_all (header : List String) :
    ∀ (patch : List (String × String)) (row : List Cell),
      (∀ k ∈ patch.map Prod.fst, k ∉ header) →
      applyPatch header row patch = row := by
  intro patch
  induction patch with
  | nil => intro row _; rfl
  | cons kv rest ih =>
    intro row hno
    obtain ⟨k, v⟩ := kv
    have hk : k ∉ header := hno k (by simp)
    simp only [applyPatch]
    rw [if_neg (fun h => hk (List.indexOf_lt_length.1 h))]
    exact ih row (fun q hq => hno q (List.mem_cons_of_mem _ hq))

/-- C3: the partial update writes back the current row with exactly the
patch keys that appear in the header overwritten at their header positions;
cells of columns not named by the patch, and cells beyond the header, are
unchanged; a patch whose keys are all absent from the header leaves the row
untouched, without error. -/
theorem updateSheetRow_spec (header row : List String)
    (patch : List (String × String)) (hp : (patch.map Prod.fst).Nodup) :
    (∀ i, i < header.length → header.getD i "" ∉ patch.map Prod.fst →
      cellVal (updateSheetRowByIndex header (some row) patch) i
        = cellVal (row.map Cell.str) i)
    ∧ (∀ i, header.length ≤ i →
      cellVal (updateSheetRowByIndex header (some row) patch) i
        = cellVal (row.map Cell.str) i)
    ∧ (∀ k v, (k, v) ∈ patch → k ∈ header →
      cellVal (updateSheetRowByIndex header (some row) patch) (header.indexOf k)
        = Cell.str v)
    ∧ ((∀ k ∈ patch.map Prod.fst, k ∉ header) →
      updateSheetRowByIndex header (some row) patch = row.map Cell.str) := by
  refine ⟨?_, ?_, ?_, ?_⟩
  · intro i hi hni
    apply applyPatch_frame
    intro kv hkv hkvin hkveq
    have hkvmem : kv.1 ∈ header := List.indexOf_lt_length.1 hkvin
    have : header.getD i "" = kv.1 := by
      rw [← hkveq, getD_indexOf header kv.1 hkvmem]
    exact hni (this ▸ List.mem_map_of_mem Prod.fst hkv)
  · intro i hi
    apply applyPatch_frame
    intro kv _ hkvin hkveq
    omega
  · intro k v hkv hk
    exact applyPatch_sets header patch _ k v hkv hp hk
  · intro hno
    exact applyPatch_skip_all header patch _ hno

/-- Witness for C3: patching column y of row [a, b, c] under header
[x, y, z] rewrites only the middle cell. -/
theorem updateSheetRow_spec_witness :
    cellVal (updateSheetRowByIndex ["x", "y", "z"] (some ["a", "b", "c"])
        [("y", "b2")]) 0 = Cell.str "a"
    ∧ cellVal (updateSheetRowByIndex ["x", "y", "z"] (some ["a", "b", "c"])
        [("y", "b2")]) 1 = Cell.str "b2"
    ∧ cellVal (updateSheetRowByIndex ["x", "y", "z"] (some ["a", "b", "c"])
        [("y", "b2")]) 2 = Cell.str "c" := by
  have h := updateSheetRow_spec ["x", "y", "z"] ["a", "b", "c"] [("y", "b2")]
    (by decide)
  refine ⟨?_, ?_, ?_⟩
  · exact h.1 0 (by decide) (by decide)
  · exact h.2.2.1 "y" "b2" (by decide) (by decide)
  · exact h.1 2 (by decide) (by decide)

/-- Reading a cell value as the string to store: a JS string stays itself,
null and undefined become the empty string. -/
def cellStr : Cell → String
  | Cell.str s => s
  | _ => ""

/-- Modelled from the spec: the Row Codec operation encodeForAppend(header,
valuesByColumn) projects a field mapping into the column order of a
canonical header, filling absent fields with the empty string.  The source
has no reusable function for this; it exists only inlined for the Users
sheet as the newRowOrdered projection of the register route (src/server.js
lines 210-220). -/
def encodeForAppend (header : List String) (rec : Record) : List String :=
  header.map (fun k => cellStr (getField rec k))

/-- The pure positional zip of a header against a raw row, the value of the
decode loop when the header has no duplicate column names. -/
def zipCells (row : List String) : Nat → List String → Record
  | _, [] => []
  | i, k :: ks => (k, jsCell row i) :: zipCells row (i + 1) ks

lemma objInsert_of_not_mem (acc : Record) (k : String) (v : Cell)
    (h : ∀ p ∈ acc, p.1 ≠ k) : objInsert acc k v = acc ++ [(k, v)] := by
  unfold objInsert
  rw [if_neg]
  intro hcon
  rw [List.any_eq_true] at hcon
  obtain ⟨p, hp, hpk⟩ := hcon
  exact h p hp (by simpa using hpk)

lemma decodeRowFrom_eq_zipCells (row : List String) :
    ∀ (hdr : List String) (i : Nat) (acc : Record), hdr.Nodup →
      (∀ k ∈ hdr, ∀ p ∈ acc, p.1 ≠ k) →
      decodeRowFrom row i acc hdr = acc ++ zipCells row i hdr := by
  intro hdr
  induction hdr with
  | nil =>
    intro i acc _ _
    simp [decodeRowFrom, zipCells]
  | cons k ks ih =>
    intro i acc hnd hacc
    simp only [decodeRowFrom, zipCells]
    rw [objInsert_of_not_mem acc k (jsCell row i) (hacc k (List.mem_cons_self k ks))]
    rw [ih (i + 1) (acc ++ [(k, jsCell row i)]) (List.nodup_cons.1 hnd).2 ?_]
    · rw [List.append_assoc]
      rfl
    · intro k2 hk2 p hp
      rcases List.mem_append.1 hp with h1 | h2
      · exact hacc k2 (List.mem_cons_of_mem k hk2) p h1
      · have hpk : p = (k, jsCell row i) := by simpa using h2
        rw [hpk]
        intro hcon
        have hkk2 : k = k2 := hcon
        exact (List.nodup_cons.1 hnd).1 (hkk2 ▸ hk2)

lemma decodeRow_eq_zipCells (header row : List String) (hnd : header.Nodup) :
    decodeRow header row = zipCells row 0 header := by
  unfold decodeRow
  rw [decodeRowFrom_eq_zipCells row header 0 [] hnd (by simp)]
  rfl

lemma getField_cons_self (k : String) (c : Cell) (rest : Record) :
    getField ((k, c) :: rest) k = c := by
  simp [getField]

lemma getField_cons_ne (k k2 : String) (c : Cell) (rest : Record) (h : k ≠ k2) :
    getField ((k, c) :: rest) k2 = getField rest k2 := by
  simp [getField, List.find?_cons, h]

lemma cellStr_jsCell (row : List String) (m : Nat) :
    cellStr (jsCell row m) = row.getD m "" := by
  simp only [jsCell, List.getD_eq_getD_get?, List.get?_eq_getElem?]
  cases h : row[m]? <;> simp [cellStr, h]

lemma encode_zipCells (row : List String) :
    ∀ (hdr : List String) (i : Nat), hdr.Nodup →
      hdr.map (fun k => cellStr (getField (zipCells row i hdr) k))
        = (List.range hdr.length).map (fun j => row.getD (i + j) "") := by
  intro hdr
  induction hdr with
  | nil => intro i _; rfl
  | cons k ks ih =>
    intro i hnd
    simp only [zipCells, List.map_cons, List.length_cons]
    rw [getField_cons_self, cellStr_jsCell]
    have htail : List.map
        (fun k2 => cellStr (getField ((k, jsCell row i) :: zipCells row (i + 1) ks) k2)) ks
        = List.map (fun k2 => cellStr (getField (zipCells row (i + 1) ks) k2)) ks := by
      apply List.map_congr_left
      intro k2 hk2
      rw [getField_cons_ne k k2 _ _
        (fun hcon => (List.nodup_cons.1 hnd).1 (hcon ▸ hk2))]
    rw [htail, ih (i + 1) (List.nodup_cons.1 hnd).2]
    rw [List.range_succ_eq_map, List.map_cons, List.map_map]
    congr 1
    apply List.map_congr_left
    intro j _
    simp only [Function.comp_apply]
    congr 1
    omega

lemma range_getD_pad (R : List String) :
    ∀ n : Nat, R.length ≤ n →
      (List.range n).map (fun j => R.getD j "")
        = R ++ List.replicate (n - R.length) "" := by
  induction R with
  | nil =>
    intro n _
    simp
  | cons r rs ih =>
    intro n hn
    cases n with
    | zero => simp at hn
    | succ m =>
      rw [List.range_succ_eq_map, List.map_cons, List.map_map]
      simp only [List.getD_cons_zero]
      have hmap : List.map ((fun j => (r :: rs).getD j "") ∘ Nat.succ) (List.range m)
          = List.map (fun j => rs.getD j "") (List.range m) := by
        apply List.map_congr_left
        intro j _
        simp only [Function.comp_apply, Nat.succ_eq_add_one, List.getD_cons_succ]
      rw [hmap, ih m (by simpa using hn)]
      simp [Nat.succ_sub_succ]

/-- C8: decoding the grid consisting of a duplicate-free header H and one
raw row R with |R| at most |H| yields one record, and re-projecting that
record through the canonical-header append encoding reproduces R padded
with empty strings to length |H|. -/
theorem decode_encode_roundtrip (H R : List String) (hnd : H.Nodup)
    (hlen : R.length ≤ H.length) (hne : H ≠ []) :
    getSheetData [H, R] = [decodeRow H R]
    ∧ encodeForAppend H (decodeRow H R) = R ++ List.replicate (H.length - R.length) "" := by
  constructor
  · rw [getSheetData_cons H [R] hne (by simp)]
    rfl
  · unfold encodeForAppend
    rw [decodeRow_eq_zipCells H R hnd, encode_zipCells R H 0 hnd]
    rw [List.map_congr_left (fun j _ => by rw [Nat.zero_add])]
    exact range_getD_pad R H.length hlen

/-- Witness for C8: header of three columns against a row of two cells
round-trips to the row padded with one empty string. -/
theorem decode_encode_roundtrip_witness :
    getSheetData [["a", "b", "c"], ["x", "y"]]
      = [decodeRow ["a", "b", "c"] ["x", "y"]]
    ∧ encodeForAppend ["a", "b", "c"] (decodeRow ["a", "b", "c"] ["x", "y"])
      = ["x", "y", ""] :=
  decode_encode_roundtrip ["a", "b", "c"] ["x", "y"]
    (by decide) (by decide) (by decide)

/-- The JS toUpperCase method, as a character-wise map (it agrees with the
JS method on the ASCII comparisons the source makes). -/
def jsToUpper (s : String) : String := String.mk (s.data.map Char.toUpper)

/-- The JS toLowerCase method, as a character-wise map (it agrees with the
JS method on the ASCII comparisons the source makes). -/
def jsToLower (s : String) : String := String.mk (s.data.map Char.toLower)

/-- The premium test of getFilteredContent (src/server.js lines 281, 290):
item.premiumAccess must be truthy and its upper-casing must equal TRUE. -/
def isPremiumFlag (r : Record) : Bool :=
  match getField r "premiumAccess" with
  | Cell.str s => s != "" && jsToUpper s == "TRUE"
  | _ => false

/-- The tier test userMembership.toLowerCase() === premium (src/server.js
lines 283, 290): calling toLowerCase on undefined or null throws a
TypeError, modelled as Except.error. -/
def tierIsPremium : Cell → Except Unit Bool
  | Cell.str s => Except.ok (jsToLower s == "premium")
  | _ => Except.error ()

/-- The filter step of getFilteredContent (src/server.js lines 279-287): a
premium-flagged item is kept only when the user tier is premium; any other
item is always kept. -/
def filterPrem (tier : Cell) : List Record → Except Unit (List Record)
  | [] => Except.ok []
  | item :: rest =>
    match (if isPremiumFlag item then tierIsPremium tier else Except.ok true) with
    | Except.error e => Except.error e
    | Except.ok keep =>
      match filterPrem tier rest with
      | Except.error e => Except.error e
      | Except.ok tail => Except.ok (if keep then item :: tail else tail)

/-- The object spread of src/server.js line 291: copy the item with fileURL
and videoURL set to the JS null. -/
def redact (item : Record) : Record :=
  objInsert (objInsert item "fileURL" Cell.null) "videoURL" Cell.null

/-- The map step of getFilteredContent (src/server.js lines 287-294):
premium items are redacted for a non-premium tier, all others returned
unchanged. -/
def redactPrem (tier : Cell) : List Record → Except Unit (List Record)
  | [] => Except.ok []
  | item :: rest =>
    match (if isPremiumFlag item then
        match tierIsPremium tier with
        | Except.error e => Except.error e
        | Except.ok p => Except.ok (!p)
      else Except.ok false) with
    | Except.error e => Except.error e
    | Except.ok hide =>
      match redactPrem tier rest with
      | Except.error e => Except.error e
      | Except.ok tail => Except.ok ((if hide then redact item else item) :: tail)

/-- getFilteredContent (src/server.js lines 277-295) on the decoded content
records: the filter step, then the map step. -/
def getFilteredContent (allContent : List Record) (userMembership : Cell) :
    Except Unit (List Record) :=
  match filterPrem userMembership allContent with
  | Except.error e => Except.error e
  | Except.ok kept => redactPrem userMembership kept

/-- A content route such as /api/content/ebooks (src/server.js lines
298-306) after authMiddleware: a throwing filter is caught and answered
with status 500, otherwise the filtered records are returned with 200. -/
def contentRoute (contentGrid : List (List String)) (user : Record) :
    Nat × Option (List Record) :=
  match getFilteredContent (getSheetData contentGrid) (getField user "membership") with
  | Except.ok items => (200, some items)
  | Except.error _ => (500, none)

/-- C1 counter-evidence: a premium-flagged record filtered for tier free is
dropped from the result entirely — the filter step removes it before the
map step could redact it — instead of being retained with fileURL and
videoURL nulled as the spec states and as the comment on the dead map
branch (src/server.js lines 288-289) itself describes. -/
theorem getFilteredContent_drops_premium :
    getFilteredContent
      [[("premiumAccess", Cell.str "TRUE"), ("fileURL", Cell.str "u1"),
        ("videoURL", Cell.str "u2"), ("title", Cell.str "t")]]
      (Cell.str "free") = Except.ok [] := rfl

lemma filterPrem_error_of_premium (tier : Cell) (l : List Record)
    (htier : tierIsPremium tier = Except.error ())
    (hex : ∃ r ∈ l, isPremiumFlag r = true) :
    filterPrem tier l = Except.error () := by
  induction l with
  | nil => simp at hex
  | cons item rest ih =>
    by_cases hitem : isPremiumFlag item = true
    · simp only [filterPrem, if_pos hitem, htier]
    · obtain ⟨r, hr, hrp⟩ := hex
      rcases List.mem_cons.1 hr with rfl | hmem
      · exact absurd hrp hitem
      · simp only [filterPrem, if_neg hitem, ih ⟨r, hmem, hrp⟩]

lemma filterPrem_all_nonpremium (tier : Cell) (l : List Record)
    (hall : ∀ r ∈ l, isPremiumFlag r = false) :
    filterPrem tier l = Except.ok l := by
  induction l with
  | nil => rfl
  | cons item rest ih =>
    have hitem : ¬ isPremiumFlag item = true := by
      rw [hall item (List.mem_cons_self item rest)]
      exact Bool.false_ne_true
    simp only [filterPrem, if_neg hitem,
      ih (fun r hr => hall r (List.mem_cons_of_mem item hr))]
    simp

lemma redactPrem_all_nonpremium (tier : Cell) (l : List Record)
    (hall : ∀ r ∈ l, isPremiumFlag r = false) :
    redactPrem tier l = Except.ok l := by
  induction l with
  | nil => rfl
  | cons item rest ih =>
    have hitem : ¬ isPremiumFlag item = true := by
      rw [hall item (List.mem_cons_self item rest)]
      exact Bool.false_ne_true
    simp only [redactPrem, if_neg hitem,
      ih (fun r hr => hall r (List.mem_cons_of_mem item hr))]
    simp

/-- C10: for an authenticated user whose record has no membership field, a
content sheet holding at least one premium-flagged record makes the filter
throw and the route answer 500 with no records, while a sheet with no
premium-flagged record is served normally with 200. -/
theorem contentRoute_missing_membership (grid : List (List String)) (user : Record)
    (hm : getField user "membership" = Cell.undef) :
    ((∃ r ∈ getSheetData grid, isPremiumFlag r = true) →
      contentRoute grid user = (500, none))
    ∧ ((∀ r ∈ getSheetData grid, isPremiumFlag r = false) →
      contentRoute grid user = (200, some (getSheetData grid))) := by
  constructor
  · intro hex
    have h1 : getFilteredContent (getSheetData grid) (getField user "membership")
        = Except.error () := by
      unfold getFilteredContent
      rw [hm, filterPrem_error_of_premium Cell.undef _ rfl hex]
    unfold contentRoute
    rw [h1]
  · intro hall
    have h1 : getFilteredContent (getSheetData grid) (getField user "membership")
        = Except.ok (getSheetData grid) := by
      unfold getFilteredContent
      rw [hm, filterPrem_all_nonpremium Cell.undef _ hall]
      exact redactPrem_all_nonpremium Cell.undef _ hall
    unfold contentRoute
    rw [h1]

/-- Witness for C10: a membership-less user gets 500 when the sheet has a
premium record and 200 when it has none. -/
theorem contentRoute_missing_membership_witness :
    contentRoute [["title", "premiumAccess"], ["t", "TRUE"]]
        [("userId", Cell.str "u")] = (500, none)
    ∧ contentRoute [["title", "premiumAccess"], ["t", "FALSE"]]
        [("userId", Cell.str "u")]
      = (200, some (getSheetData [["title", "premiumAccess"], ["t", "FALSE"]])) := by
  constructor
  · exact (contentRoute_missing_membership
      [["title", "premiumAccess"], ["t", "TRUE"]] [("userId", Cell.str "u")] rfl).1
      ⟨decodeRow ["title", "premiumAccess"] ["t", "TRUE"], by decide, by decide⟩
  · exact (contentRoute_missing_membership
      [["title", "premiumAccess"], ["t", "FALSE"]] [("userId", Cell.str "u")] rfl).2
      (by decide)

end SheetsBackend
